import Mathlib

/-!
# Verification of the Yul RedundantAssignEliminator

A shallow embedding of `libyul/optimiser/RedundantAssignEliminator.cpp`
together with the shared utilities (`UseState`, `ForLoopInfo`) from the
accompanying header. The analyzer walks a structured AST, tracking for each
single-target assignment whether the assigned value is ever read before the
variable is overwritten or leaves scope, and collects provably dead
assignments into a pending-removal set.

The embedding mirrors the C++ closely:
* `UseState` with `join = max` over `Unused < Undecided < Used`;
* `TrackedAssignments` as the nested map from variable name to
  assignment-site identity to `UseState` (the C++ `std::map` nesting is
  represented as a function into `Option UseState`);
* `RAEState` bundles the member fields of the `RedundantAssignEliminator`
  visitor (`m_assignments`, `m_declaredVariables`, `m_returnVariables`,
  the `ForLoopInfo` snapshot lists, `m_pendingRemovals`,
  `m_forLoopNestingDepth`);
* one Lean function per visitor `operator()` overload, with exceptions from
  `assertThrow` modelled by `Except`.

External collaborators that the pass consumes but does not define
(the generic `ASTWalker` recursion, `util::joinMap`, and the
`SideEffectsCollector` movability classifier) are modelled from the spec:
the walker recurses into sub-expressions and sub-statements, `joinMap`
merges two maps joining values present in both, and movability is an
abstract boolean predicate on assignment-site identities (the purity
classifier applied to the right-hand side stored at that site).
-/

namespace Yul

/-- The three-valued use-state lattice from the shared header:
`enum Value { Unused, Undecided, Used }`. -/
inductive UseState where
  | Unused
  | Undecided
  | Used
deriving DecidableEq, Repr

/-- Numeric value of a `UseState`, matching the order of the C++ enum. -/
def UseState.toNat : UseState → Nat
  | .Unused => 0
  | .Undecided => 1
  | .Used => 2

/-- Inverse of `UseState.toNat` on `{0, 1, 2}`; mirrors the C++ cast
`Value(...)` back from `int`. -/
def UseState.fromNat (n : Nat) : UseState :=
  if n = 0 then .Unused else if n = 1 then .Undecided else .Used

/-- `UseState::join`: `_a.m_value = Value(std::max(int(_a), int(_b)))`.
The C++ mutates the first argument; the embedding returns the joined
value. -/
def UseState.join (a b : UseState) : UseState :=
  UseState.fromNat (max a.toNat b.toNat)

/-- The lattice order `Unused < Undecided < Used`, via `toNat`. -/
def UseState.le (a b : UseState) : Prop := a.toNat ≤ b.toNat

instance (a b : UseState) : Decidable (a.le b) := by
  unfold UseState.le; infer_instance

/-- `TrackedAssignments`: the C++
`map<YulString, map<Assignment const*, UseState>>`. Variable names are
strings; assignment-site identities (the C++ node pointers) are natural
numbers. A result of `none` means the key pair is absent from the nested
map. -/
def TrackedAssignments := String → Nat → Option UseState

/-- The empty tracked-assignments map. -/
def emptyTA : TrackedAssignments := fun _ _ => none

/-- Join of two optional use-states, as `util::joinMap` does per key:
values present in both maps are joined, a value present in only one map is
kept. Modelled from the spec: `joinMap` itself lives in
`libsolutil/CommonData.h`, outside this repository slice. -/
def optJoin : Option UseState → Option UseState → Option UseState
  | some a, some b => some (UseState.join a b)
  | some a, none => some a
  | none, some b => some b
  | none, none => none

/-- `RedundantAssignEliminator::merge(TrackedAssignments&, TrackedAssignments&&)`:
pointwise `joinMap` at both nesting levels. -/
def mergeTA (a b : TrackedAssignments) : TrackedAssignments :=
  fun v i => optJoin (a v i) (b v i)

/-- `RedundantAssignEliminator::changeUndecidedTo`: every entry for
variable `var` that is currently `Undecided` is set to `ns`; entries in
other states, and entries of other variables, are untouched. -/
def changeUndecidedToA (a : TrackedAssignments) (var : String) (ns : UseState) :
    TrackedAssignments :=
  fun v i =>
    if v = var then
      (a v i).map fun s => if s = UseState.Undecided then ns else s
    else a v i

/-- The registration step of `operator()(Assignment)`:
`m_assignments[var][&_assignment];` default-constructs the entry in state
`Undecided` only when it does not yet exist; an existing entry keeps its
state. -/
def registerA (a : TrackedAssignments) (var : String) (id : Nat) :
    TrackedAssignments :=
  fun v i =>
    if v = var ∧ i = id then some ((a var id).getD UseState.Undecided)
    else a v i

/-- Erase every entry of one variable, as `m_assignments.erase(_variable)`
does. -/
def eraseVar (a : TrackedAssignments) (var : String) : TrackedAssignments :=
  fun v i => if v = var then none else a v i

/-- The member state of the `RedundantAssignEliminator` visitor object. -/
structure RAEState where
  /-- `m_assignments`. -/
  assignments : TrackedAssignments
  /-- `m_declaredVariables` (a set, kept as a duplicate-free list). -/
  declaredVariables : List String
  /-- `m_returnVariables`. -/
  returnVariables : List String
  /-- `m_forLoopInfo.pendingBreakStmts`. -/
  pendingBreakStmts : List TrackedAssignments
  /-- `m_forLoopInfo.pendingContinueStmts`. -/
  pendingContinueStmts : List TrackedAssignments
  /-- `m_pendingRemovals`, a set of assignment-site identities. -/
  pendingRemovals : Nat → Bool
  /-- `m_forLoopNestingDepth`. -/
  forLoopNestingDepth : Nat

/-- A fresh visitor state, as default-constructed members. -/
def emptyState : RAEState :=
  { assignments := emptyTA
    declaredVariables := []
    returnVariables := []
    pendingBreakStmts := []
    pendingContinueStmts := []
    pendingRemovals := fun _ => false
    forLoopNestingDepth := 0 }

/-- The resolution step of `RedundantAssignEliminator::finalize`: the
outstanding writes of `var` in the current tracked map are joined with the
entries for `var` in every pending break snapshot and every pending
continue snapshot. -/
def resolvedWrites (st : RAEState) (var : String) : Nat → Option UseState :=
  fun i =>
    (st.pendingBreakStmts ++ st.pendingContinueStmts).foldl
      (fun acc ta => optJoin acc (ta var i)) (st.assignments var i)

/-- `RedundantAssignEliminator::finalize(variable, finalState)`: join the
outstanding writes of the variable across the current map and all pending
break/continue snapshots, erase the variable everywhere, and flag each
resolved write for removal exactly when its resolved state (with
`Undecided` falling back to the default final state) is `Unused` and its
right-hand side is movable. `movable` is the external
`SideEffectsCollector{dialect, *assignment->value}.movable()` classifier,
indexed by assignment-site identity. -/
def finalize (movable : Nat → Bool) (st : RAEState) (var : String)
    (d : UseState) : RAEState :=
  let resolved := resolvedWrites st var
  { st with
    assignments := eraseVar st.assignments var
    pendingBreakStmts := st.pendingBreakStmts.map (eraseVar · var)
    pendingContinueStmts := st.pendingContinueStmts.map (eraseVar · var)
    pendingRemovals := fun i =>
      st.pendingRemovals i ||
        match resolved i with
        | some s =>
            (if (if s = UseState.Undecided then d else s) = UseState.Unused
             then movable i else false)
        | none => false }

mutual

/-- Yul expressions: identifiers, literals and function calls. Argument
lists are a mutually inductive list type so that the walker can be defined
by structural recursion. -/
inductive Expr where
  | ident (name : String)
  | lit (n : Nat)
  | call (fn : String) (args : ExprList)

/-- Lists of expressions (function-call arguments). -/
inductive ExprList where
  | nil
  | cons (e : Expr) (es : ExprList)

end

mutual

/-- Yul statements, with assignment sites carrying their stable identity
(the C++ `Assignment const*` used as a map key). Bodies of blocks, branch
constructs and function definitions are `StmtList` values treated as
`Block` nodes by the walker. -/
inductive Stmt where
  | exprStmt (e : Expr)
  | varDecl (vars : List String) (value : Option Expr)
  | assign (id : Nat) (targets : List String) (value : Expr)
  | ifStmt (cond : Expr) (body : StmtList)
  | switch (cond : Expr) (cases : CaseList)
  | forLoop (pre : StmtList) (cond : Expr) (post : StmtList) (body : StmtList)
  | breakStmt
  | continueStmt
  | leave
  | funDef (params : List String) (rets : List String) (body : StmtList)
  | block (stmts : StmtList)

/-- Lists of statements (block contents). -/
inductive StmtList where
  | nil
  | cons (s : Stmt) (ss : StmtList)

/-- Lists of switch cases; a case with value `none` is the default case. -/
inductive CaseList where
  | nil
  | cons (value : Option Nat) (body : StmtList) (rest : CaseList)

end

/-- Does the case list contain a default case (the C++ `hasDefault` flag,
set when a case has a null value)? -/
def hasDefaultCase : CaseList → Bool
  | .nil => false
  | .cons v _ rest => v.isNone || hasDefaultCase rest

mutual

/-- The `operator()(Identifier)` effect together with the generic walker
recursion into sub-expressions. Modelled from the spec: the `ASTWalker`
base class (default behavior recurses into children) is an external
collaborator; the only state effect of expression traversal is the
`Identifier` override, `changeUndecidedTo(name, Used)`. -/
def visitExprA (a : TrackedAssignments) : Expr → TrackedAssignments
  | .ident n => changeUndecidedToA a n UseState.Used
  | .lit _ => a
  | .call _ args => visitExprListA a args

/-- Walker recursion over argument lists. All expression effects are
`changeUndecidedTo(·, Used)` calls, so the visiting order of arguments
does not influence the resulting map. -/
def visitExprListA (a : TrackedAssignments) : ExprList → TrackedAssignments
  | .nil => a
  | .cons e es => visitExprListA (visitExprA a e) es

end

/-- The error raised by `assertThrow(..., OptimizerException, ...)`:
an internal-invariant failure, distinct from user diagnostics. -/
inductive OptimizerException where
  | nonEmptyForLoopPre
deriving DecidableEq, Repr

/-- Entering a block scope: `ScopedSaveAndRestore(m_declaredVariables, {})`
resets the declared-variable set. -/
def blockEnter (st : RAEState) : RAEState :=
  { st with declaredVariables := [] }

/-- Leaving a block scope: each variable declared directly in the block is
finalized with default final state `Unused`, then the saved outer
declared-variable set is restored. An error from the block body
propagates. -/
def blockExit (movable : Nat → Bool) (saved : List String) :
    Except OptimizerException RAEState → Except OptimizerException RAEState
  | .error e => .error e
  | .ok st2 =>
      .ok { st2.declaredVariables.foldl (fun s v => finalize movable s v UseState.Unused) st2 with
            declaredVariables := saved }

/-- Start of `operator()(ForLoop)` after the pre-block assertion: reset
`m_forLoopInfo` to empty, increment the nesting depth, and visit the loop
condition. -/
def stLoopInit (st : RAEState) (c : Expr) : RAEState :=
  let st0 := { st with
    pendingBreakStmts := []
    pendingContinueStmts := []
    forLoopNestingDepth := st.forLoopNestingDepth + 1 }
  { st0 with assignments := visitExprA st0.assignments c }

/-- The continue-merge step of `operator()(ForLoop)`: merge every pending
continue snapshot into `m_assignments` and clear the list (continue jumps
to the post-block). -/
def contMerged (st : RAEState) : RAEState :=
  { st with
    assignments := st.pendingContinueStmts.foldl mergeTA st.assignments
    pendingContinueStmts := [] }

/-- Re-visiting the loop condition (reads in the condition happen on each
iteration). -/
def condAfter (st : RAEState) (c : Expr) : RAEState :=
  { st with assignments := visitExprA st.assignments c }

/-- The deep-nesting shortcut of `operator()(ForLoop)`: every tracked
entry not already present in the zero-run snapshot is set to `Used`;
entries present in the snapshot keep their state. -/
def forcedUsed (a zero : TrackedAssignments) : TrackedAssignments :=
  fun v i =>
    match a v i with
    | none => none
    | some s => if (zero v i).isSome then some s else some UseState.Used

/-- End of `operator()(ForLoop)`: merge the zero-run snapshot and all
pending break snapshots into the given assignment map, restore the outer
`ForLoopInfo`, and undo the nesting-depth increment. -/
def loopFinish (a : TrackedAssignments) (stEnd : RAEState)
    (zeroRuns : TrackedAssignments) (outer : RAEState) : RAEState :=
  { stEnd with
    assignments := stEnd.pendingBreakStmts.foldl mergeTA (mergeTA a zeroRuns)
    pendingBreakStmts := outer.pendingBreakStmts
    pendingContinueStmts := outer.pendingContinueStmts
    forLoopNestingDepth := stEnd.forLoopNestingDepth - 1 }

mutual

/-- One Lean equation per `RedundantAssignEliminator::operator()` overload
on statements; the walker recursion (visiting every child) is modelled
from the spec for node kinds without an override. Errors from
`assertThrow` are propagated through `Except`. -/
def visitStmt (movable : Nat → Bool) (st : RAEState) :
    Stmt → Except OptimizerException RAEState
  | .exprStmt e => .ok { st with assignments := visitExprA st.assignments e }
  | .varDecl vars value =>
      let st1 :=
        match value with
        | some e => { st with assignments := visitExprA st.assignments e }
        | none => st
      .ok { st1 with
            declaredVariables :=
              vars.foldl (fun l v => if v ∈ l then l else l ++ [v])
                st1.declaredVariables }
  | .assign id targets value =>
      let a1 := visitExprA st.assignments value
      let a2 := targets.foldl (fun a v => changeUndecidedToA a v UseState.Unused) a1
      let a3 :=
        match targets with
        | [v] => registerA a2 v id
        | _ => a2
      .ok { st with assignments := a3 }
  | .ifStmt c body =>
      let st1 := { st with assignments := visitExprA st.assignments c }
      let skip := st1.assignments
      match blockExit movable st1.declaredVariables
          (visitStmts movable (blockEnter st1) body) with
      | .error e => .error e
      | .ok st2 => .ok { st2 with assignments := mergeTA st2.assignments skip }
  | .switch c cases =>
      let st1 := { st with assignments := visitExprA st.assignments c }
      let pre := st1.assignments
      match switchCases movable st1 pre cases with
      | .error e => .error e
      | .ok (st2, branches) =>
          if hasDefaultCase cases then
            match branches.getLast? with
            | some lastB =>
                .ok { st2 with assignments := branches.dropLast.foldl mergeTA lastB }
            | none => .ok st2
          else
            .ok { st2 with assignments := branches.foldl mergeTA st2.assignments }
  | .forLoop pre c post body =>
      match pre with
      | .cons _ _ => .error .nonEmptyForLoopPre
      | .nil =>
          let st1 := stLoopInit st c
          let zeroRuns := st1.assignments
          match blockExit movable st1.declaredVariables
              (visitStmts movable (blockEnter st1) body) with
          | .error e => .error e
          | .ok st2 =>
              let st3 := contMerged st2
              match blockExit movable st3.declaredVariables
                  (visitStmts movable (blockEnter st3) post) with
              | .error e => .error e
              | .ok st4 =>
                  let st5 := condAfter st4 c
                  if st5.forLoopNestingDepth < 6 then
                    let oneRun := st5.assignments
                    match blockExit movable st5.declaredVariables
                        (visitStmts movable (blockEnter st5) body) with
                    | .error e => .error e
                    | .ok st6 =>
                        let st7 := contMerged st6
                        match blockExit movable st7.declaredVariables
                            (visitStmts movable (blockEnter st7) post) with
                        | .error e => .error e
                        | .ok st8 =>
                            let st9 := condAfter st8 c
                            .ok (loopFinish (mergeTA st9.assignments oneRun) st9
                              zeroRuns st)
                  else
                    .ok (loopFinish (forcedUsed st5.assignments zeroRuns) st5
                      zeroRuns st)
  | .breakStmt =>
      .ok { st with
            pendingBreakStmts := st.pendingBreakStmts ++ [st.assignments]
            assignments := emptyTA }
  | .continueStmt =>
      .ok { st with
            pendingContinueStmts := st.pendingContinueStmts ++ [st.assignments]
            assignments := emptyTA }
  | .leave =>
      .ok { st with
            assignments :=
              st.returnVariables.foldl
                (fun a v => changeUndecidedToA a v UseState.Used) st.assignments }
  | .funDef params rets body =>
      let inner := { st with
        declaredVariables := []
        returnVariables := rets
        assignments := emptyTA
        pendingBreakStmts := []
        pendingContinueStmts := [] }
      match blockExit movable inner.declaredVariables
          (visitStmts movable (blockEnter inner) body) with
      | .error e => .error e
      | .ok st2 =>
          let st3 := params.foldl (fun s v => finalize movable s v UseState.Unused) st2
          let st4 := rets.foldl (fun s v => finalize movable s v UseState.Used) st3
          .ok { st4 with
                declaredVariables := st.declaredVariables
                returnVariables := st.returnVariables
                assignments := st.assignments
                pendingBreakStmts := st.pendingBreakStmts
                pendingContinueStmts := st.pendingContinueStmts }
  | .block ss =>
      blockExit movable st.declaredVariables (visitStmts movable (blockEnter st) ss)

/-- The walker over statement sequences (the body of
`ASTWalker::operator()(Block)`): statements are visited in order, an
error aborts the traversal. -/
def visitStmts (movable : Nat → Bool) (st : RAEState) :
    StmtList → Except OptimizerException RAEState
  | .nil => .ok st
  | .cons s ss =>
      match visitStmt movable st s with
      | .error e => .error e
      | .ok st1 => visitStmts movable st1 ss

/-- The case loop of `operator()(Switch)`: each case body is analyzed as a
block starting from the pre-switch snapshot of `m_assignments` (the other
visitor fields thread through), the resulting assignment maps are
collected in order, and `m_assignments` is reset to the snapshot after
each case. -/
def switchCases (movable : Nat → Bool) (st : RAEState)
    (pre : TrackedAssignments) :
    CaseList → Except OptimizerException (RAEState × List TrackedAssignments)
  | .nil => .ok (st, [])
  | .cons _v body rest =>
      match blockExit movable st.declaredVariables
          (visitStmts movable (blockEnter st) body) with
      | .error e => .error e
      | .ok st2 =>
          match switchCases movable { st2 with assignments := pre } pre rest with
          | .error e => .error e
          | .ok (st3, brs) => .ok (st3, st2.assignments :: brs)

end

/-- `operator()(Block)`: open a declared-variable scope, walk the
statements, finalize every variable declared directly in the block with
default `Unused`, restore the outer scope. -/
def visitBlock (movable : Nat → Bool) (st : RAEState) (ss : StmtList) :
    Except OptimizerException RAEState :=
  blockExit movable st.declaredVariables (visitStmts movable (blockEnter st) ss)

/-- C5: the use-state join is max over `Unused < Undecided < Used`, and is
commutative, associative and idempotent. -/
theorem useState_join_is_max_comm_assoc_idem :
    (∀ a b : UseState, UseState.join a b = if a.toNat ≤ b.toNat then b else a)
    ∧ (∀ a b : UseState, UseState.join a b = UseState.join b a)
    ∧ (∀ a b c : UseState,
        UseState.join (UseState.join a b) c = UseState.join a (UseState.join b c))
    ∧ (∀ a : UseState, UseState.join a a = a) := by
  refine ⟨?_, ?_, ?_, ?_⟩
  · intro a b; cases a <;> cases b <;> rfl
  · intro a b; cases a <;> cases b <;> rfl
  · intro a b c; cases a <;> cases b <;> cases c <;> rfl
  · intro a; cases a <;> rfl

end Yul

namespace Yul

/-- The join dominates its left argument. -/
theorem UseState.le_join_left (a b : UseState) : a.le (UseState.join a b) := by
  cases a <;> cases b <;> decide

/-- The join dominates its right argument. -/
theorem UseState.le_join_right (a b : UseState) : b.le (UseState.join a b) := by
  cases a <;> cases b <;> decide

/-- The join is commutative. -/
theorem UseState.join_comm (a b : UseState) : UseState.join a b = UseState.join b a := by
  cases a <;> cases b <;> rfl

/-- The join is associative. -/
theorem UseState.join_assoc (a b c : UseState) :
    UseState.join (UseState.join a b) c = UseState.join a (UseState.join b c) := by
  cases a <;> cases b <;> cases c <;> rfl

/-- The optional join is commutative. -/
theorem optJoin_comm (a b : Option UseState) : optJoin a b = optJoin b a := by
  cases a <;> cases b <;> simp [optJoin, UseState.join_comm]

/-- The optional join is associative. -/
theorem optJoin_assoc (a b c : Option UseState) :
    optJoin (optJoin a b) c = optJoin a (optJoin b c) := by
  cases a <;> cases b <;> cases c <;> simp [optJoin, UseState.join_assoc]

/-- `none` is a unit for the optional join. -/
theorem optJoin_none_right (a : Option UseState) : optJoin a none = a := by
  cases a <;> rfl

/-- Map merging is commutative. -/
theorem mergeTA_comm (a b : TrackedAssignments) : mergeTA a b = mergeTA b a := by
  funext v i; simp [mergeTA, optJoin_comm]

/-- Map merging is associative. -/
theorem mergeTA_assoc (a b c : TrackedAssignments) :
    mergeTA (mergeTA a b) c = mergeTA a (mergeTA b c) := by
  funext v i; simp [mergeTA, optJoin_assoc]

/-- The empty map is a right unit for merging. -/
theorem mergeTA_empty_right (a : TrackedAssignments) : mergeTA a emptyTA = a := by
  funext v i; simp [mergeTA, emptyTA, optJoin_none_right]

/-- A merge can be pulled out of a left fold of merges. -/
theorem foldl_mergeTA_pull (l : List TrackedAssignments) (a b : TrackedAssignments) :
    l.foldl mergeTA (mergeTA a b) = mergeTA a (l.foldl mergeTA b) := by
  induction l generalizing b with
  | nil => rfl
  | cons c cs ih =>
      simp only [List.foldl_cons]
      rw [mergeTA_assoc, ih]

/-- A left fold of merges from any base is the base merged with the fold
from the empty map. -/
theorem foldl_mergeTA_base (l : List TrackedAssignments) (b : TrackedAssignments) :
    l.foldl mergeTA b = mergeTA b (l.foldl mergeTA emptyTA) := by
  have h := foldl_mergeTA_pull l b emptyTA
  rwa [mergeTA_empty_right] at h

/-- Appending one map to the fold list merges it at the end. -/
theorem foldl_mergeTA_append_single (l : List TrackedAssignments)
    (x : TrackedAssignments) :
    (l ++ [x]).foldl mergeTA emptyTA = mergeTA (l.foldl mergeTA emptyTA) x := by
  rw [List.foldl_append]
  rfl

/-- An `Except` value is `isOk` exactly when it is an `ok`. -/
theorem isOk_iff {α : Type} {r : Except OptimizerException α} :
    r.isOk = true ↔ ∃ a, r = .ok a := by
  cases r <;> simp [Except.isOk, Except.toBool]

/-- `blockExit` never introduces nor swallows an error. -/
theorem blockExit_isOk (movable : Nat → Bool) (saved : List String)
    (r : Except OptimizerException RAEState) :
    (blockExit movable saved r).isOk = r.isOk := by
  cases r <;> rfl

/-- `changeUndecidedTo` never adds or removes entries. -/
theorem changeUndecidedToA_isSome (a : TrackedAssignments) (var : String)
    (ns : UseState) (w : String) (i : Nat) :
    (changeUndecidedToA a var ns w i).isSome = (a w i).isSome := by
  unfold changeUndecidedToA
  split <;> simp

/-- A fold of `changeUndecidedTo` steps never adds or removes entries. -/
theorem foldl_changeUndecidedToA_isSome (ts : List String) (ns : UseState)
    (a : TrackedAssignments) (w : String) (i : Nat) :
    ((ts.foldl (fun m v => changeUndecidedToA m v ns) a) w i).isSome = (a w i).isSome := by
  induction ts generalizing a with
  | nil => rfl
  | cons t ts ih =>
      simp only [List.foldl_cons]
      rw [ih, changeUndecidedToA_isSome]

mutual

/-- Expression traversal never adds or removes tracked entries. -/
theorem visitExprA_isSome (a : TrackedAssignments) (e : Expr) (w : String) (i : Nat) :
    (visitExprA a e w i).isSome = (a w i).isSome := by
  cases e with
  | ident n => exact changeUndecidedToA_isSome a n UseState.Used w i
  | lit n => rfl
  | call f args => exact visitExprListA_isSome a args w i

/-- Argument-list traversal never adds or removes tracked entries. -/
theorem visitExprListA_isSome (a : TrackedAssignments) (es : ExprList)
    (w : String) (i : Nat) :
    (visitExprListA a es w i).isSome = (a w i).isSome := by
  cases es with
  | nil => rfl
  | cons e es' =>
      show (visitExprListA (visitExprA a e) es' w i).isSome = (a w i).isSome
      rw [visitExprListA_isSome (visitExprA a e) es' w i, visitExprA_isSome a e w i]

end

/-- `changeUndecidedTo` keeps an `Unused` entry `Unused`. -/
theorem changeUndecidedToA_keeps_unused (a : TrackedAssignments) (var : String)
    (ns : UseState) (w : String) (i : Nat)
    (h : a w i = some UseState.Unused) :
    changeUndecidedToA a var ns w i = some UseState.Unused := by
  unfold changeUndecidedToA
  split <;> simp [h]

/-- A fold of `changeUndecidedTo` steps keeps an `Unused` entry `Unused`. -/
theorem foldl_changeUndecidedToA_keeps_unused (ts : List String) (ns : UseState)
    (a : TrackedAssignments) (w : String) (i : Nat)
    (h : a w i = some UseState.Unused) :
    (ts.foldl (fun m v => changeUndecidedToA m v ns) a) w i = some UseState.Unused := by
  induction ts generalizing a with
  | nil => exact h
  | cons t ts ih =>
      simp only [List.foldl_cons]
      exact ih _ (changeUndecidedToA_keeps_unused a t ns w i h)

/-- Folding `changeUndecidedTo(·, Unused)` over the target list lowers an
outstanding `Undecided` entry of any listed variable to `Unused`. -/
theorem foldl_changeUndecidedToA_lowers (ts : List String)
    (a : TrackedAssignments) (t : String) (i : Nat)
    (hmem : t ∈ ts) (h : a t i = some UseState.Undecided) :
    (ts.foldl (fun m v => changeUndecidedToA m v UseState.Unused) a) t i =
      some UseState.Unused := by
  induction ts generalizing a with
  | nil => cases hmem
  | cons t0 ts ih =>
      simp only [List.foldl_cons]
      by_cases ht : t = t0
      · subst ht
        apply foldl_changeUndecidedToA_keeps_unused
        unfold changeUndecidedToA
        simp [h]
      · rcases List.mem_cons.mp hmem with h0 | hmem'
        · exact absurd h0 ht
        · apply ih _ hmem'
          unfold changeUndecidedToA
          split
          · next heq => exact absurd heq ht
          · exact h

/-- Applying `changeUndecidedTo` to the variable of an `Undecided` entry
rewrites that entry to the new state. -/
theorem changeUndecidedToA_lowers (a : TrackedAssignments) (t : String)
    (ns : UseState) (i : Nat) (h : a t i = some UseState.Undecided) :
    changeUndecidedToA a t ns t i = some ns := by
  unfold changeUndecidedToA
  simp [h]

/-- `registerA` keeps an `Unused` entry `Unused`: registration
default-constructs only absent entries. -/
theorem registerA_keeps_unused (a : TrackedAssignments) (var : String) (id : Nat)
    (w : String) (i : Nat) (h : a w i = some UseState.Unused) :
    registerA a var id w i = some UseState.Unused := by
  unfold registerA
  split
  · next heq =>
      obtain ⟨hv, hi⟩ := heq
      subst hv; subst hi
      simp [h]
  · exact h

end Yul

namespace Yul

mutual

/-- Does every for-loop inside the statement have an empty pre-block (the
precondition whose violation raises the optimizer exception)? -/
def noBadPre : Stmt → Bool
  | .ifStmt _ body => noBadPreL body
  | .switch _ cases => noBadPreC cases
  | .forLoop pre _ post body =>
      (match pre with | .nil => true | .cons _ _ => false)
        && noBadPreL post && noBadPreL body
  | .funDef _ _ body => noBadPreL body
  | .block ss => noBadPreL ss
  | _ => true

/-- `noBadPre` over statement lists. -/
def noBadPreL : StmtList → Bool
  | .nil => true
  | .cons s ss => noBadPre s && noBadPreL ss

/-- `noBadPre` over case lists. -/
def noBadPreC : CaseList → Bool
  | .nil => true
  | .cons _ body rest => noBadPreL body && noBadPreC rest

end

mutual

/-- Statement analysis succeeds whenever every nested for-loop has an
empty pre-block: the pre-block assertion is the only error source. -/
theorem visitStmt_isOk (movable : Nat → Bool) (st : RAEState) (s : Stmt)
    (h : noBadPre s = true) : (visitStmt movable st s).isOk = true := by
  cases s with
  | exprStmt e => rfl
  | varDecl vars value => cases value <;> rfl
  | assign id targets value => rfl
  | breakStmt => rfl
  | continueStmt => rfl
  | leave => rfl
  | ifStmt c body =>
      have hb : noBadPreL body = true := by simpa [noBadPre] using h
      show (match blockExit movable _ (visitStmts movable _ body) with
            | .error e => Except.error e
            | .ok st2 => Except.ok { st2 with assignments := mergeTA st2.assignments _ }).isOk
          = true
      have hs := visitStmts_isOk movable
        (blockEnter { st with assignments := visitExprA st.assignments c }) body hb
      have hx : (blockExit movable
          { st with assignments := visitExprA st.assignments c }.declaredVariables
          (visitStmts movable
            (blockEnter { st with assignments := visitExprA st.assignments c }) body)).isOk
          = true := by
        rw [blockExit_isOk]; exact hs
      obtain ⟨st2, h2⟩ := isOk_iff.mp hx
      rw [h2]
      rfl
  | switch c cases =>
      have hc : noBadPreC cases = true := by simpa [noBadPre] using h
      have hs := switchCases_isOk movable
        { st with assignments := visitExprA st.assignments c }
        (visitExprA st.assignments c) cases hc
      obtain ⟨p, hp⟩ := isOk_iff.mp hs
      show (match switchCases movable
              { st with assignments := visitExprA st.assignments c }
              (visitExprA st.assignments c) cases with
            | .error e => Except.error e
            | .ok (st2, branches) => _).isOk = true
      rw [hp]
      cases p with
      | mk st2 branches =>
          dsimp only
          split
          · split <;> rfl
          · rfl
  | forLoop pre c post body =>
      cases pre with
      | cons s0 ss0 => simp [noBadPre] at h
      | nil =>
          have hpost : noBadPreL post = true := by
            have := h; simp [noBadPre] at this; exact this.1
          have hbody : noBadPreL body = true := by
            have := h; simp [noBadPre] at this; exact this.2
          show (match blockExit movable (stLoopInit st c).declaredVariables
                  (visitStmts movable (blockEnter (stLoopInit st c)) body) with
                | .error e => Except.error e
                | .ok st2 => _).isOk = true
          have h2x : (blockExit movable (stLoopInit st c).declaredVariables
              (visitStmts movable (blockEnter (stLoopInit st c)) body)).isOk = true := by
            rw [blockExit_isOk]
            exact visitStmts_isOk movable _ body hbody
          obtain ⟨st2, h2⟩ := isOk_iff.mp h2x
          rw [h2]
          dsimp only
          have h4x : (blockExit movable (contMerged st2).declaredVariables
              (visitStmts movable (blockEnter (contMerged st2)) post)).isOk = true := by
            rw [blockExit_isOk]
            exact visitStmts_isOk movable _ post hpost
          obtain ⟨st4, h4⟩ := isOk_iff.mp h4x
          rw [h4]
          dsimp only
          by_cases hd : (condAfter st4 c).forLoopNestingDepth < 6
          · rw [if_pos hd]
            have h6x : (blockExit movable (condAfter st4 c).declaredVariables
                (visitStmts movable (blockEnter (condAfter st4 c)) body)).isOk = true := by
              rw [blockExit_isOk]
              exact visitStmts_isOk movable _ body hbody
            obtain ⟨st6, h6⟩ := isOk_iff.mp h6x
            rw [h6]
            dsimp only
            have h8x : (blockExit movable (contMerged st6).declaredVariables
                (visitStmts movable (blockEnter (contMerged st6)) post)).isOk = true := by
              rw [blockExit_isOk]
              exact visitStmts_isOk movable _ post hpost
            obtain ⟨st8, h8⟩ := isOk_iff.mp h8x
            rw [h8]
            rfl
          · rw [if_neg hd]
            rfl
  | funDef params rets body =>
      have hb : noBadPreL body = true := by simpa [noBadPre] using h
      have hx : (blockExit movable ([] : List String)
          (visitStmts movable
            (blockEnter { st with
              declaredVariables := []
              returnVariables := rets
              assignments := emptyTA
              pendingBreakStmts := []
              pendingContinueStmts := [] }) body)).isOk = true := by
        rw [blockExit_isOk]
        exact visitStmts_isOk movable _ body hb
      show (match blockExit movable _ (visitStmts movable _ body) with
            | .error e => Except.error e
            | .ok st2 => _).isOk = true
      obtain ⟨st2, h2⟩ := isOk_iff.mp hx
      rw [h2]
      rfl
  | block ss =>
      have hb : noBadPreL ss = true := by simpa [noBadPre] using h
      show (blockExit movable st.declaredVariables
        (visitStmts movable (blockEnter st) ss)).isOk = true
      rw [blockExit_isOk]
      exact visitStmts_isOk movable _ ss hb

/-- Statement-list analysis succeeds whenever every nested for-loop has an
empty pre-block. -/
theorem visitStmts_isOk (movable : Nat → Bool) (st : RAEState) (ss : StmtList)
    (h : noBadPreL ss = true) : (visitStmts movable st ss).isOk = true := by
  cases ss with
  | nil => rfl
  | cons s ss' =>
      have hs : noBadPre s = true := by
        have := h; simp [noBadPreL] at this; exact this.1
      have hss : noBadPreL ss' = true := by
        have := h; simp [noBadPreL] at this; exact this.2
      show (match visitStmt movable st s with
            | .error e => Except.error e
            | .ok st1 => visitStmts movable st1 ss').isOk = true
      obtain ⟨st1, h1⟩ := isOk_iff.mp (visitStmt_isOk movable st s hs)
      rw [h1]
      exact visitStmts_isOk movable st1 ss' hss

/-- Case-list analysis succeeds whenever every nested for-loop has an
empty pre-block. -/
theorem switchCases_isOk (movable : Nat → Bool) (st : RAEState)
    (pre : TrackedAssignments) (cs : CaseList) (h : noBadPreC cs = true) :
    (switchCases movable st pre cs).isOk = true := by
  cases cs with
  | nil => rfl
  | cons v body rest =>
      have hb : noBadPreL body = true := by
        have := h; simp [noBadPreC] at this; exact this.1
      have hr : noBadPreC rest = true := by
        have := h; simp [noBadPreC] at this; exact this.2
      show (match blockExit movable st.declaredVariables
              (visitStmts movable (blockEnter st) body) with
            | .error e => Except.error e
            | .ok st2 =>
                match switchCases movable { st2 with assignments := pre } pre rest with
                | .error e => Except.error e
                | .ok (st3, brs) => Except.ok (st3, st2.assignments :: brs)).isOk = true
      have hx : (blockExit movable st.declaredVariables
          (visitStmts movable (blockEnter st) body)).isOk = true := by
        rw [blockExit_isOk]
        exact visitStmts_isOk movable _ body hb
      obtain ⟨st2, h2⟩ := isOk_iff.mp hx
      rw [h2]
      dsimp only
      obtain ⟨p, hp⟩ := isOk_iff.mp
        (switchCases_isOk movable { st2 with assignments := pre } pre rest hr)
      rw [hp]
      rfl

end

end Yul

namespace Yul

/-- After the case loop of `operator()(Switch)`, `m_assignments` equals
the pre-switch snapshot again: every iteration ends by restoring it. -/
theorem switchCases_assignments_eq (movable : Nat → Bool)
    (pre : TrackedAssignments) (cs : CaseList) :
    ∀ (st : RAEState), st.assignments = pre →
    ∀ (st2 : RAEState) (brs : List TrackedAssignments),
      switchCases movable st pre cs = .ok (st2, brs) → st2.assignments = pre := by
  cases cs with
  | nil =>
      intro st hst st2 brs hok
      have : Except.ok (st, ([] : List TrackedAssignments)) = .ok (st2, brs) := hok
      cases this
      exact hst
  | cons v body rest =>
      intro st hst st2 brs hok
      revert hok
      show (match blockExit movable st.declaredVariables
              (visitStmts movable (blockEnter st) body) with
            | .error e => Except.error e
            | .ok stB =>
                match switchCases movable { stB with assignments := pre } pre rest with
                | .error e => Except.error e
                | .ok (st3, brs') => Except.ok (st3, stB.assignments :: brs')) =
          .ok (st2, brs) → st2.assignments = pre
      cases hb : blockExit movable st.declaredVariables
          (visitStmts movable (blockEnter st) body) with
      | error e => intro hok; cases hok
      | ok stB =>
          dsimp only
          cases hr : switchCases movable { stB with assignments := pre } pre rest with
          | error e => intro hok; cases hok
          | ok p =>
              cases p with
              | mk st3 brs' =>
                  intro hok
                  cases hok
                  exact switchCases_assignments_eq movable pre rest
                    { stB with assignments := pre } rfl _ _ hr

/-- Unwrap an analysis result, with a fallback for the error case. -/
def okOr (r : Except OptimizerException RAEState) : RAEState :=
  match r with
  | .ok s => s
  | .error _ => emptyState

/-- Unwrap a case-loop result, with a fallback for the error case. -/
def okOrP (r : Except OptimizerException (RAEState × List TrackedAssignments)) :
    RAEState × List TrackedAssignments :=
  match r with
  | .ok p => p
  | .error _ => (emptyState, [])

/-- C2: finalizing a variable with a default final state resolves each
outstanding tracked write by joining the current map with all pending
break and continue snapshots, `Undecided` entries taking the default; a
write newly enters the pending-removal set exactly when its resolved
state is `Unused` and its right-hand side is movable — in particular a
non-movable write never enters the set even when resolved `Unused`. -/
theorem finalize_resolves_and_flags (movable : Nat → Bool) (st : RAEState)
    (var : String) (d : UseState) (i : Nat)
    (hnew : st.pendingRemovals i = false) :
    (finalize movable st var d).pendingRemovals i = true ↔
      ∃ s, resolvedWrites st var i = some s
        ∧ (if s = UseState.Undecided then d else s) = UseState.Unused
        ∧ movable i = true := by
  unfold finalize
  dsimp only
  rw [hnew]
  rw [Bool.false_or]
  cases h : resolvedWrites st var i with
  | none => simp
  | some s =>
      dsimp only
      constructor
      · intro hif
        refine ⟨s, rfl, ?_, ?_⟩
        · by_contra hne
          rw [if_neg hne] at hif
          cases hif
        · by_cases hc : (if s = UseState.Undecided then d else s) = UseState.Unused
          · rwa [if_pos hc] at hif
          · rw [if_neg hc] at hif
            cases hif
      · rintro ⟨s', hs', hu, hm⟩
        cases hs'
        rw [if_pos hu]
        exact hm

/-- Concrete state for the C2 witness: one outstanding `Undecided` write
to `x` at site `0`. -/
def c2State : RAEState :=
  { emptyState with
    assignments := fun v i =>
      if v = "x" ∧ i = 0 then some UseState.Undecided else none }

/-- C2 witness: finalizing `x` with default `Unused` under an
all-movable classifier flags site `0` for removal. -/
theorem finalize_resolves_and_flags_witness :
    (finalize (fun _ => true) c2State "x" UseState.Unused).pendingRemovals 0 = true :=
  (finalize_resolves_and_flags (fun _ => true) c2State "x" UseState.Unused 0 rfl).mpr
    ⟨UseState.Undecided, rfl, rfl, rfl⟩

/-- C6: a single-target assignment first visits the right-hand side, then
lowers every outstanding `Undecided` write of the target to `Unused`, then
registers the assignment site in state `Undecided` (keeping an existing
entry); an assignment whose target list does not have exactly one element
adds no tracked entry at all, so it can never become a removal
candidate. -/
theorem assign_single_target_order (movable : Nat → Bool) (st : RAEState)
    (id : Nat) (v : String) (e : Expr) :
    visitStmt movable st (.assign id [v] e) =
      .ok { st with assignments := (registerA
        (changeUndecidedToA (visitExprA st.assignments e) v UseState.Unused) v id) }
    ∧ (st.assignments v id = none →
        ∀ st2 : RAEState, visitStmt movable st (.assign id [v] e) = .ok st2 →
        st2.assignments v id = some UseState.Undecided)
    ∧ ∀ targets : List String, targets.length ≠ 1 →
        ∀ st2 : RAEState, visitStmt movable st (.assign id targets e) = .ok st2 →
        ∀ (w : String) (i : Nat),
          (st2.assignments w i).isSome = (st.assignments w i).isSome := by
  refine ⟨rfl, ?_, ?_⟩
  · intro hnone st2 hok
    have hok2 : Except.ok
        ({ st with assignments := (registerA
          (changeUndecidedToA (visitExprA st.assignments e) v UseState.Unused)
          v id) } : RAEState) = .ok st2 := hok
    cases hok2
    have ha : changeUndecidedToA (visitExprA st.assignments e) v UseState.Unused
        v id = none := by
      have hs : (changeUndecidedToA (visitExprA st.assignments e) v
          UseState.Unused v id).isSome = (st.assignments v id).isSome := by
        rw [changeUndecidedToA_isSome, visitExprA_isSome]
      rw [hnone] at hs
      exact Option.not_isSome_iff_eq_none.mp (by simp [hs])
    show registerA (changeUndecidedToA (visitExprA st.assignments e) v
        UseState.Unused) v id v id = some UseState.Undecided
    unfold registerA
    rw [if_pos ⟨rfl, rfl⟩, ha]
    rfl
  · intro targets hlen st2 hok w i
    rcases targets with _ | ⟨v0, _ | ⟨v1, rest⟩⟩
    · have hok2 : Except.ok
          ({ st with assignments := visitExprA st.assignments e } : RAEState) =
          .ok st2 := hok
      cases hok2
      exact visitExprA_isSome st.assignments e w i
    · exact absurd rfl hlen
    · have hok2 : Except.ok
          ({ st with assignments := ((v0 :: v1 :: rest).foldl
            (fun a t => changeUndecidedToA a t UseState.Unused)
            (visitExprA st.assignments e)) } : RAEState) =
          .ok st2 := hok
      cases hok2
      show (((v0 :: v1 :: rest).foldl
          (fun a t => changeUndecidedToA a t UseState.Unused)
          (visitExprA st.assignments e)) w i).isSome = (st.assignments w i).isSome
      rw [foldl_changeUndecidedToA_isSome]
      exact visitExprA_isSome st.assignments e w i

/-- C6 witness: a fresh single-target assignment is registered in state
`Undecided`, and a two-target assignment leaves the tracked-entry domain
unchanged at an arbitrary probe point. -/
theorem assign_single_target_order_witness :
    (okOr (visitStmt (fun _ => true) emptyState
        (.assign 1 ["x"] (.lit 0)))).assignments "x" 1 =
      some UseState.Undecided
    ∧ ((okOr (visitStmt (fun _ => true) emptyState
        (.assign 2 ["a", "b"] (.lit 0)))).assignments "a" 2).isSome =
      ((emptyState).assignments "a" 2).isSome :=
  ⟨(assign_single_target_order (fun _ => true) emptyState 1 "x" (.lit 0)).2.1
      rfl
      (okOr (visitStmt (fun _ => true) emptyState (.assign 1 ["x"] (.lit 0))))
      rfl,
    (assign_single_target_order (fun _ => true) emptyState 2 "a" (.lit 0)).2.2
      ["a", "b"] (by decide)
      (okOr (visitStmt (fun _ => true) emptyState (.assign 2 ["a", "b"] (.lit 0))))
      rfl "a" 2⟩

/-- C9: visiting any assignment, multi-target ones included, lowers every
outstanding `Undecided` write of each target variable to `Unused`
(superseding them), while a tracked entry for the statement itself is
registered only in the single-target case — with several targets the
tracked-entry domain is unchanged, so the statement never becomes a
removal candidate. -/
theorem assign_supersedes_targets (movable : Nat → Bool) (st : RAEState)
    (id : Nat) (targets : List String) (e : Expr) (st2 : RAEState)
    (hok : visitStmt movable st (.assign id targets e) = .ok st2) :
    (∀ t ∈ targets, ∀ i : Nat,
        visitExprA st.assignments e t i = some UseState.Undecided →
        st2.assignments t i = some UseState.Unused)
    ∧ (targets.length ≠ 1 →
        ∀ (w : String) (i : Nat),
          (st2.assignments w i).isSome = (st.assignments w i).isSome) := by
  rcases targets with _ | ⟨v0, _ | ⟨v1, rest⟩⟩
  · have hok2 : Except.ok
        ({ st with assignments := visitExprA st.assignments e } : RAEState) =
        .ok st2 := hok
    cases hok2
    constructor
    · intro t hmem; cases hmem
    · intro _ w i; exact visitExprA_isSome st.assignments e w i
  · have hok2 : Except.ok
        ({ st with assignments := (registerA
          (changeUndecidedToA (visitExprA st.assignments e) v0 UseState.Unused)
          v0 id) } : RAEState) =
        .ok st2 := hok
    cases hok2
    constructor
    · intro t hmem i hu
      have hmemv : t = v0 := by simpa using hmem
      subst hmemv
      show registerA (changeUndecidedToA (visitExprA st.assignments e) t UseState.Unused)
          t id t i = some UseState.Unused
      exact registerA_keeps_unused _ t id t i
        (changeUndecidedToA_lowers (visitExprA st.assignments e) t UseState.Unused i hu)
    · intro hlen; exact absurd rfl hlen
  · have hok2 : Except.ok
        ({ st with assignments := ((v0 :: v1 :: rest).foldl
          (fun a t => changeUndecidedToA a t UseState.Unused)
          (visitExprA st.assignments e)) } : RAEState) =
        .ok st2 := hok
    cases hok2
    constructor
    · intro t hmem i hu
      exact foldl_changeUndecidedToA_lowers (v0 :: v1 :: rest)
        (visitExprA st.assignments e) t i hmem hu
    · intro _ w i
      show (((v0 :: v1 :: rest).foldl
          (fun a t => changeUndecidedToA a t UseState.Unused)
          (visitExprA st.assignments e)) w i).isSome = (st.assignments w i).isSome
      rw [foldl_changeUndecidedToA_isSome]
      exact visitExprA_isSome st.assignments e w i

/-- Concrete state for the C9 witness: outstanding `Undecided` writes to
both `a` and `b`. -/
def c9State : RAEState :=
  { emptyState with
    assignments := fun v i =>
      if (v = "a" ∨ v = "b") ∧ i = 0 then some UseState.Undecided else none }

/-- C9 witness: a two-target assignment to `a, b` lowers the outstanding
write to `a` to `Unused`. -/
theorem assign_supersedes_targets_witness :
    (okOr (visitStmt (fun _ => true) c9State
        (.assign 7 ["a", "b"] (.lit 1)))).assignments "a" 0 =
      some UseState.Unused :=
  (assign_supersedes_targets (fun _ => true) c9State 7 ["a", "b"] (.lit 1)
      (okOr (visitStmt (fun _ => true) c9State (.assign 7 ["a", "b"] (.lit 1))))
      rfl).1
    "a" (by decide) 0 rfl

end Yul

namespace Yul

/-- The lattice order is reflexive. -/
theorem UseState.le_refl (s : UseState) : s.le s := by
  cases s <;> decide

/-- The empty map is a left unit for merging. -/
theorem mergeTA_empty_left (a : TrackedAssignments) : mergeTA emptyTA a = a := by
  funext v i
  show optJoin none (a v i) = a v i
  cases a v i <;> rfl

/-- State with one outstanding `Undecided` write to `x` at site `0`, used
to refute the monotonicity claim at the assignment step. -/
def c4State : RAEState :=
  { emptyState with
    assignments := fun v i =>
      if v = "x" ∧ i = 0 then some UseState.Undecided else none }

/-- C4 counterexample: visiting the assignment `x := 0` (site `1`) moves
the tracked state of the outstanding write at site `0` from `Undecided`
down to `Unused`, so a tracked write does not only move up the lattice
across analyzer steps. -/
theorem trackedState_moves_down_at_assignment :
    c4State.assignments "x" 0 = some UseState.Undecided
    ∧ (okOr (visitStmt (fun _ => true) c4State
        (.assign 1 ["x"] (.lit 0)))).assignments "x" 0 = some UseState.Unused
    ∧ ¬ UseState.le UseState.Undecided UseState.Unused :=
  ⟨rfl, rfl, by decide⟩

/-- C4 amended: merge steps only move a tracked state up the lattice (in
either argument), raising with `Used` (identifier reads, leave) only moves
states up, a decided (`Used` or `Unused`) entry is never altered by
`changeUndecidedTo`, and the only possible downward transition of these
primitives is `changeUndecidedTo` rewriting an `Undecided` entry of the
named variable to the requested state — `Unused` at an assignment. -/
theorem trackedState_transition_shape :
    (∀ (a b : TrackedAssignments) (v : String) (i : Nat) (s : UseState),
        a v i = some s → ∃ t, mergeTA a b v i = some t ∧ s.le t)
    ∧ (∀ (a b : TrackedAssignments) (v : String) (i : Nat) (s : UseState),
        b v i = some s → ∃ t, mergeTA a b v i = some t ∧ s.le t)
    ∧ (∀ (a : TrackedAssignments) (var w : String) (i : Nat) (s t : UseState),
        a w i = some s → changeUndecidedToA a var UseState.Used w i = some t →
        s.le t)
    ∧ (∀ (a : TrackedAssignments) (var : String) (ns : UseState) (w : String)
        (i : Nat) (s : UseState), a w i = some s → s ≠ UseState.Undecided →
        changeUndecidedToA a var ns w i = some s)
    ∧ (∀ (a : TrackedAssignments) (var : String) (ns : UseState) (w : String)
        (i : Nat) (s t : UseState), a w i = some s →
        changeUndecidedToA a var ns w i = some t →
        s.le t ∨ (s = UseState.Undecided ∧ t = ns)) := by
  refine ⟨?_, ?_, ?_, ?_, ?_⟩
  · intro a b v i s h
    show ∃ t, optJoin (a v i) (b v i) = some t ∧ s.le t
    rw [h]
    cases b v i with
    | none => exact ⟨s, rfl, UseState.le_refl s⟩
    | some u => exact ⟨UseState.join s u, rfl, UseState.le_join_left s u⟩
  · intro a b v i s h
    show ∃ t, optJoin (a v i) (b v i) = some t ∧ s.le t
    rw [h]
    cases a v i with
    | none => exact ⟨s, rfl, UseState.le_refl s⟩
    | some u => exact ⟨UseState.join u s, rfl, UseState.le_join_right u s⟩
  · intro a var w i s t h ht
    revert ht
    unfold changeUndecidedToA
    split
    · rw [h]
      intro ht
      have ht' : (if s = UseState.Undecided then UseState.Used else s) = t := by
        simpa using ht
      subst ht'
      cases s <;> decide
    · rw [h]
      intro ht
      cases ht
      exact UseState.le_refl s
  · intro a var ns w i s h hne
    unfold changeUndecidedToA
    split
    · rw [h]
      simp [hne]
    · exact h
  · intro a var ns w i s t h ht
    revert ht
    unfold changeUndecidedToA
    split
    · rw [h]
      intro ht
      have ht' : (if s = UseState.Undecided then ns else s) = t := by
        simpa using ht
      by_cases hs : s = UseState.Undecided
      · right
        rw [if_pos hs] at ht'
        exact ⟨hs, ht'.symm⟩
      · left
        rw [if_neg hs] at ht'
        subst ht'
        exact UseState.le_refl s
    · rw [h]
      intro ht
      cases ht
      exact Or.inl (UseState.le_refl s)

/-- Map with one decided (`Used`) entry, for the C4 witness. -/
def c4Used : TrackedAssignments := fun v i =>
  if v = "x" ∧ i = 0 then some UseState.Used else none

/-- C4 witness: a decided `Used` entry survives a lowering
`changeUndecidedTo` untouched. -/
theorem trackedState_transition_shape_witness :
    changeUndecidedToA c4Used "x" UseState.Unused "x" 0 = some UseState.Used :=
  trackedState_transition_shape.2.2.2.1 c4Used "x" UseState.Unused "x" 0
    UseState.Used rfl (by decide)

/-- The merge the switch claim describes for a default-free switch: the
join of the case-branch results only, without the pre-switch snapshot. -/
def switchJoinBranchesOnly (branches : List TrackedAssignments) :
    TrackedAssignments :=
  match branches with
  | [] => emptyTA
  | b :: bs => bs.foldl mergeTA b

/-- Analyzer state at the C3 counterexample switch: one outstanding
`Undecided` write to `x` at site `0`. -/
def c3State : RAEState :=
  { emptyState with
    assignments := fun v i =>
      if v = "x" ∧ i = 0 then some UseState.Undecided else none }

/-- The C3 counterexample case list: a single constant-labelled case that
reassigns `x` (site `1`); no default case. -/
def c3Cases : CaseList :=
  .cons (some 0) (.cons (.assign 1 ["x"] (.lit 5)) .nil) .nil

/-- The C3 counterexample switch statement. -/
def c3Switch : Stmt := .switch (.lit 0) c3Cases

/-- C3 counterexample: for the default-free switch over one case that
overwrites `x`, the analyzer leaves the outstanding write at site `0` in
state `Undecided` (the pre-switch snapshot is part of the merge), while
the join of the case-branch results alone would put it at `Unused` — the
claimed equality fails. -/
theorem switch_nodefault_pre_participates :
    (okOr (visitStmt (fun _ => true) c3State c3Switch)).assignments "x" 0 =
      some UseState.Undecided
    ∧ switchJoinBranchesOnly
        (okOrP (switchCases (fun _ => true) c3State c3State.assignments
          c3Cases)).2 "x" 0 = some UseState.Unused
    ∧ (okOr (visitStmt (fun _ => true) c3State c3Switch)).assignments "x" 0 ≠
        switchJoinBranchesOnly
          (okOrP (switchCases (fun _ => true) c3State c3State.assignments
            c3Cases)).2 "x" 0 :=
  ⟨rfl, rfl, by decide⟩

/-- C3 amended: for a switch without a default case the post-switch
tracked state is the join of the pre-switch snapshot (taken after
evaluating the switch expression) with the final states of all case
branches, each analyzed from a copy of that snapshot: the snapshot is the
merge base and stands for the path on which no case is taken. -/
theorem switch_nodefault_merge (movable : Nat → Bool) (st : RAEState)
    (c : Expr) (cases : CaseList) (st2 : RAEState)
    (branches : List TrackedAssignments)
    (hnd : hasDefaultCase cases = false)
    (hok : switchCases movable
        { st with assignments := visitExprA st.assignments c }
        (visitExprA st.assignments c) cases = .ok (st2, branches)) :
    visitStmt movable st (.switch c cases) =
      .ok { st2 with assignments := (branches.foldl mergeTA
        (visitExprA st.assignments c)) }
    ∧ st2.assignments = visitExprA st.assignments c := by
  have hpre : st2.assignments = visitExprA st.assignments c :=
    switchCases_assignments_eq movable (visitExprA st.assignments c) cases
      { st with assignments := visitExprA st.assignments c } rfl st2 branches hok
  refine ⟨?_, hpre⟩
  show (match switchCases movable
          { st with assignments := visitExprA st.assignments c }
          (visitExprA st.assignments c) cases with
        | .error e => Except.error e
        | .ok (st2', branches') =>
            if hasDefaultCase cases then
              match branches'.getLast? with
              | some lastB =>
                  Except.ok { st2' with
                    assignments := branches'.dropLast.foldl mergeTA lastB }
              | none => Except.ok st2'
            else
              Except.ok { st2' with
                assignments := branches'.foldl mergeTA st2'.assignments }) =
      .ok { st2 with assignments := (branches.foldl mergeTA
        (visitExprA st.assignments c)) }
  rw [hok]
  dsimp only
  rw [hnd, if_neg (by decide : ¬ (false = true))]
  rw [hpre]

/-- C3 witness: the amended merge equation evaluated on the
counterexample switch. -/
theorem switch_nodefault_merge_witness :
    visitStmt (fun _ => true) c3State c3Switch =
      .ok { (okOrP (switchCases (fun _ => true) c3State c3State.assignments
          c3Cases)).1 with
        assignments := ((okOrP (switchCases (fun _ => true) c3State
          c3State.assignments c3Cases)).2.foldl mergeTA c3State.assignments) } :=
  (switch_nodefault_merge (fun _ => true) c3State (.lit 0) c3Cases
    (okOrP (switchCases (fun _ => true) c3State c3State.assignments c3Cases)).1
    (okOrP (switchCases (fun _ => true) c3State c3State.assignments c3Cases)).2
    rfl rfl).1

end Yul

namespace Yul

/-- C10: when the switch has a default case the pre-switch snapshot is
dropped from the merge: the result of the last case in the list replaces
`m_assignments` as the merge base, the remaining case results are merged
into it, and the outcome is the join of the case-branch results only —
which treats the last list element as the default branch. -/
theorem switch_default_merge (movable : Nat → Bool) (st : RAEState)
    (c : Expr) (cases : CaseList) (st2 : RAEState)
    (branches : List TrackedAssignments) (lastB : TrackedAssignments)
    (hd : hasDefaultCase cases = true)
    (hok : switchCases movable
        { st with assignments := visitExprA st.assignments c }
        (visitExprA st.assignments c) cases = .ok (st2, branches))
    (hlast : branches.getLast? = some lastB) :
    visitStmt movable st (.switch c cases) =
      .ok { st2 with assignments := (branches.dropLast.foldl mergeTA lastB) }
    ∧ ∀ (b0 : TrackedAssignments) (bs : List TrackedAssignments),
        branches = b0 :: bs →
        branches.dropLast.foldl mergeTA lastB = bs.foldl mergeTA b0 := by
  constructor
  · show (match switchCases movable
            { st with assignments := visitExprA st.assignments c }
            (visitExprA st.assignments c) cases with
          | .error e => Except.error e
          | .ok (st2', branches') =>
              if hasDefaultCase cases then
                match branches'.getLast? with
                | some lastB' =>
                    Except.ok { st2' with
                      assignments := branches'.dropLast.foldl mergeTA lastB' }
                | none => Except.ok st2'
              else
                Except.ok { st2' with
                  assignments := branches'.foldl mergeTA st2'.assignments }) =
        .ok { st2 with assignments := (branches.dropLast.foldl mergeTA lastB) }
    rw [hok]
    dsimp only
    rw [hd, if_pos (by decide : (true = true))]
    rw [hlast]
  · intro b0 bs hbr
    subst hbr
    have happ : (b0 :: bs).dropLast ++ [lastB] = b0 :: bs :=
      List.dropLast_append_getLast? lastB (Option.mem_def.mpr hlast)
    calc (b0 :: bs).dropLast.foldl mergeTA lastB
        = mergeTA lastB ((b0 :: bs).dropLast.foldl mergeTA emptyTA) :=
          foldl_mergeTA_base _ _
      _ = mergeTA ((b0 :: bs).dropLast.foldl mergeTA emptyTA) lastB :=
          mergeTA_comm _ _
      _ = ((b0 :: bs).dropLast ++ [lastB]).foldl mergeTA emptyTA :=
          (foldl_mergeTA_append_single _ _).symm
      _ = (b0 :: bs).foldl mergeTA emptyTA := by rw [happ]
      _ = bs.foldl mergeTA (mergeTA emptyTA b0) := rfl
      _ = bs.foldl mergeTA b0 := by rw [mergeTA_empty_left]

/-- Case list for the C10 witness: one constant-labelled case and a
default case, each writing `x` at a distinct site. -/
def c10Cases : CaseList :=
  .cons (some 0) (.cons (.assign 1 ["x"] (.lit 5)) .nil)
    (.cons none (.cons (.assign 2 ["x"] (.lit 6)) .nil) .nil)

/-- The C10 witness switch statement. -/
def c10Switch : Stmt := .switch (.lit 0) c10Cases

/-- C10 witness: the default-carrying switch merges the two case results
with the last (default) branch as base. -/
theorem switch_default_merge_witness :
    visitStmt (fun _ => true) emptyState c10Switch =
      .ok { (okOrP (switchCases (fun _ => true) emptyState
          emptyState.assignments c10Cases)).1 with
        assignments := (((okOrP (switchCases (fun _ => true) emptyState
          emptyState.assignments c10Cases)).2).dropLast.foldl mergeTA
          (((okOrP (switchCases (fun _ => true) emptyState
            emptyState.assignments c10Cases)).2).getLast?.getD emptyTA)) } :=
  (switch_default_merge (fun _ => true) emptyState (.lit 0) c10Cases
    (okOrP (switchCases (fun _ => true) emptyState emptyState.assignments
      c10Cases)).1
    (okOrP (switchCases (fun _ => true) emptyState emptyState.assignments
      c10Cases)).2
    ((okOrP (switchCases (fun _ => true) emptyState emptyState.assignments
      c10Cases)).2.getLast?.getD emptyTA)
    rfl rfl rfl).1

end Yul

namespace Yul

/-- C7: for a for-loop with empty pre-block the analyzer runs condition,
body (folding in continue snapshots), post, condition; when the loop is
analyzed at nesting depth below 6, the body+post+condition sequence runs a
second time and its outcome is merged with the one-run snapshot, while at
depth 6 or above each tracked entry absent from the zero-run snapshot is
forced to `Used` instead of a second run; in both cases the zero-run
snapshot and then every pending break snapshot are merged in afterwards
(by `loopFinish`). -/
theorem forLoop_two_run_and_fast_path (movable : Nat → Bool) (st : RAEState)
    (c : Expr) (post body : StmtList) (st2 st4 : RAEState)
    (h2 : visitBlock movable (stLoopInit st c) body = .ok st2)
    (h4 : visitBlock movable (contMerged st2) post = .ok st4) :
    ((condAfter st4 c).forLoopNestingDepth < 6 →
      ∀ st6 st8 : RAEState,
        visitBlock movable (condAfter st4 c) body = .ok st6 →
        visitBlock movable (contMerged st6) post = .ok st8 →
        visitStmt movable st (.forLoop .nil c post body) =
          .ok (loopFinish
            (mergeTA (condAfter st8 c).assignments (condAfter st4 c).assignments)
            (condAfter st8 c) (stLoopInit st c).assignments st))
    ∧ (¬ (condAfter st4 c).forLoopNestingDepth < 6 →
      visitStmt movable st (.forLoop .nil c post body) =
        .ok (loopFinish
          (forcedUsed (condAfter st4 c).assignments (stLoopInit st c).assignments)
          (condAfter st4 c) (stLoopInit st c).assignments st)) := by
  unfold visitBlock at h2 h4
  constructor
  · intro hlt st6 st8 h6 h8
    unfold visitBlock at h6 h8
    show (match blockExit movable (stLoopInit st c).declaredVariables
            (visitStmts movable (blockEnter (stLoopInit st c)) body) with
          | .error e => Except.error e
          | .ok st2' =>
              match blockExit movable (contMerged st2').declaredVariables
                  (visitStmts movable (blockEnter (contMerged st2')) post) with
              | .error e => Except.error e
              | .ok st4' =>
                  if (condAfter st4' c).forLoopNestingDepth < 6 then
                    match blockExit movable (condAfter st4' c).declaredVariables
                        (visitStmts movable (blockEnter (condAfter st4' c)) body) with
                    | .error e => Except.error e
                    | .ok st6' =>
                        match blockExit movable (contMerged st6').declaredVariables
                            (visitStmts movable (blockEnter (contMerged st6')) post) with
                        | .error e => Except.error e
                        | .ok st8' =>
                            Except.ok (loopFinish
                              (mergeTA (condAfter st8' c).assignments
                                (condAfter st4' c).assignments)
                              (condAfter st8' c) (stLoopInit st c).assignments st)
                  else
                    Except.ok (loopFinish
                      (forcedUsed (condAfter st4' c).assignments
                        (stLoopInit st c).assignments)
                      (condAfter st4' c) (stLoopInit st c).assignments st)) =
        .ok (loopFinish
          (mergeTA (condAfter st8 c).assignments (condAfter st4 c).assignments)
          (condAfter st8 c) (stLoopInit st c).assignments st)
    rw [h2]
    dsimp only
    rw [h4]
    dsimp only
    rw [if_pos hlt]
    rw [h6]
    dsimp only
    rw [h8]
  · intro hge
    show (match blockExit movable (stLoopInit st c).declaredVariables
            (visitStmts movable (blockEnter (stLoopInit st c)) body) with
          | .error e => Except.error e
          | .ok st2' =>
              match blockExit movable (contMerged st2').declaredVariables
                  (visitStmts movable (blockEnter (contMerged st2')) post) with
              | .error e => Except.error e
              | .ok st4' =>
                  if (condAfter st4' c).forLoopNestingDepth < 6 then
                    match blockExit movable (condAfter st4' c).declaredVariables
                        (visitStmts movable (blockEnter (condAfter st4' c)) body) with
                    | .error e => Except.error e
                    | .ok st6' =>
                        match blockExit movable (contMerged st6').declaredVariables
                            (visitStmts movable (blockEnter (contMerged st6')) post) with
                        | .error e => Except.error e
                        | .ok st8' =>
                            Except.ok (loopFinish
                              (mergeTA (condAfter st8' c).assignments
                                (condAfter st4' c).assignments)
                              (condAfter st8' c) (stLoopInit st c).assignments st)
                  else
                    Except.ok (loopFinish
                      (forcedUsed (condAfter st4' c).assignments
                        (stLoopInit st c).assignments)
                      (condAfter st4' c) (stLoopInit st c).assignments st)) =
        .ok (loopFinish
          (forcedUsed (condAfter st4 c).assignments (stLoopInit st c).assignments)
          (condAfter st4 c) (stLoopInit st c).assignments st)
    rw [h2]
    dsimp only
    rw [h4]
    dsimp only
    rw [if_neg hge]

/-- Intermediate state of the trivial C7 witness loop: after the first
body run. -/
def c7st2 : RAEState :=
  okOr (visitBlock (fun _ => true) (stLoopInit emptyState (.lit 0)) .nil)

/-- Intermediate state of the trivial C7 witness loop: after the first
post run. -/
def c7st4 : RAEState := okOr (visitBlock (fun _ => true) (contMerged c7st2) .nil)

/-- Intermediate state of the trivial C7 witness loop: after the second
body run. -/
def c7st6 : RAEState :=
  okOr (visitBlock (fun _ => true) (condAfter c7st4 (.lit 0)) .nil)

/-- Intermediate state of the trivial C7 witness loop: after the second
post run. -/
def c7st8 : RAEState := okOr (visitBlock (fun _ => true) (contMerged c7st6) .nil)

/-- C7 witness: the depth-1 trivial loop takes the two-run path and ends
in the merged state the theorem predicts. -/
theorem forLoop_two_run_and_fast_path_witness :
    visitStmt (fun _ => true) emptyState (.forLoop .nil (.lit 0) .nil .nil) =
      .ok (loopFinish
        (mergeTA (condAfter c7st8 (.lit 0)).assignments
          (condAfter c7st4 (.lit 0)).assignments)
        (condAfter c7st8 (.lit 0)) (stLoopInit emptyState (.lit 0)).assignments
        emptyState) :=
  (forLoop_two_run_and_fast_path (fun _ => true) emptyState (.lit 0) .nil .nil
    c7st2 c7st4 rfl rfl).1 (by decide) c7st6 c7st8 rfl rfl

/-- C8: a for-loop whose pre-block is non-empty makes the analyzer abort
with the optimizer exception (an internal-invariant failure, not a user
diagnostic), whatever the rest of the loop contains; with an empty
pre-block this check raises no error — the analysis then succeeds whenever
the loop contents contain no offending nested pre-block either. -/
theorem forLoop_pre_assertion (movable : Nat → Bool) (st : RAEState)
    (c : Expr) (post body : StmtList) :
    (∀ (s0 : Stmt) (ss0 : StmtList),
        visitStmt movable st (.forLoop (.cons s0 ss0) c post body) =
          .error .nonEmptyForLoopPre)
    ∧ (noBadPreL post = true → noBadPreL body = true →
        (visitStmt movable st (.forLoop .nil c post body)).isOk = true) := by
  constructor
  · intro s0 ss0
    rfl
  · intro hpost hbody
    refine visitStmt_isOk movable st _ ?_
    show (true && noBadPreL post && noBadPreL body) = true
    rw [hpost, hbody]
    rfl

/-- C8 witness: a loop with a break statement in its pre-block errors,
and the trivial empty-pre loop analyzes successfully. -/
theorem forLoop_pre_assertion_witness :
    visitStmt (fun _ => true) emptyState
        (.forLoop (.cons .breakStmt .nil) (.lit 0) .nil .nil) =
      .error .nonEmptyForLoopPre
    ∧ (visitStmt (fun _ => true) emptyState
        (.forLoop .nil (.lit 0) .nil .nil)).isOk = true :=
  ⟨(forLoop_pre_assertion (fun _ => true) emptyState (.lit 0) .nil .nil).1
      .breakStmt .nil,
    (forLoop_pre_assertion (fun _ => true) emptyState (.lit 0) .nil .nil).2
      rfl rfl⟩

end Yul
